import Mathlib

/-!
Shallow embedding of the terminal-question detector and navigator in
claude_question_handler.py, together with theorems checking the stated
properties of its specification.

Python strings are modelled as Lean String values, with the line and
pattern manipulation carried out on List Char.  Python regular
expressions used by the source are transcribed as explicit scanning
functions; each transcription is documented next to its definition.
-/

set_option maxRecDepth 20000

/-- Python str.isspace and the regex class backslash-s, restricted to the
ASCII range that can occur in the screens handled by the program. -/
def pyIsSpace (c : Char) : Bool :=
  c = ' ' || c = '\t' || c = '\n' || c = '\r' || c = '\x0b' || c = '\x0c'

/-- Python str.strip applied to a list of characters. -/
def pyStrip (l : List Char) : List Char :=
  List.reverse ((List.reverse (l.dropWhile pyIsSpace)).dropWhile pyIsSpace)

/-- Python str.startswith on character lists. -/
def startsWithL : List Char → List Char → Bool
  | [], _ => true
  | _ :: _, [] => false
  | p :: ps, c :: cs => p = c && startsWithL ps cs

/-- Python substring containment, needle-in-haystack, on character lists. -/
def containsL (needle : List Char) : List Char → Bool
  | [] => startsWithL needle []
  | c :: cs => startsWithL needle (c :: cs) || containsL needle cs

/-- Python str.split on a newline, on character lists. -/
def splitLines : List Char → List (List Char)
  | [] => [[]]
  | c :: cs =>
    if c = '\n' then [] :: splitLines cs
    else
      match splitLines cs with
      | [] => [[c]]
      | l :: ls => (c :: l) :: ls

/-- Python int applied to a string of decimal digits. -/
def natOfDigits (ds : List Char) : Nat :=
  ds.foldl (fun n c => n * 10 + (c.toNat - '0'.toNat)) 0

/-! ## Text sanitizer

strip_ansi in the source substitutes the empty string for every match of
the regular expression ESC ( [@-Z backslash-underscore] | bracket
[0x30-0x3F]* [0x20-0x2F]* [0x40-0x7E] ).  The scanner below walks the
text once; a failed match at an ESC emits the characters consumed so far
literally and resumes scanning just after that ESC, exactly as re.sub
resumes at the next position. -/

/-- Character class [@-Z backslash-underscore] of the strip_ansi regex:
bytes 0x40-0x5A and 0x5C-0x5F. -/
def isFeByte (c : Char) : Bool :=
  decide (0x40 ≤ c.toNat ∧ c.toNat ≤ 0x5A) || decide (0x5C ≤ c.toNat ∧ c.toNat ≤ 0x5F)

/-- CSI parameter byte class [0-?] of the strip_ansi regex. -/
def isCsiParam (c : Char) : Bool :=
  decide (0x30 ≤ c.toNat ∧ c.toNat ≤ 0x3F)

/-- CSI intermediate byte class [space-slash] of the strip_ansi regex. -/
def isCsiInter (c : Char) : Bool :=
  decide (0x20 ≤ c.toNat ∧ c.toNat ≤ 0x2F)

/-- CSI final byte class [@-tilde] of the strip_ansi regex. -/
def isCsiFinal (c : Char) : Bool :=
  decide (0x40 ≤ c.toNat ∧ c.toNat ≤ 0x7E)

/-- Scanner state: outside any escape, just after an ESC, or inside an
ESC-bracket sequence (seen holds the consumed bytes in reverse, inInter
records that an intermediate byte has been read). -/
inductive AnsiMode where
  | normal
  | esc
  | csi (seen : List Char) (inInter : Bool)

/-- One left-to-right pass implementing re.sub of the strip_ansi pattern
with the empty replacement. -/
def ansiScan : AnsiMode → List Char → List Char
  | AnsiMode.normal, [] => []
  | AnsiMode.normal, c :: cs =>
    if c = '\x1b' then ansiScan AnsiMode.esc cs
    else c :: ansiScan AnsiMode.normal cs
  | AnsiMode.esc, [] => ['\x1b']
  | AnsiMode.esc, c :: cs =>
    if isFeByte c then ansiScan AnsiMode.normal cs
    else if c = '[' then ansiScan (AnsiMode.csi [] false) cs
    else if c = '\x1b' then '\x1b' :: ansiScan AnsiMode.esc cs
    else '\x1b' :: c :: ansiScan AnsiMode.normal cs
  | AnsiMode.csi seen _, [] => '\x1b' :: '[' :: seen.reverse
  | AnsiMode.csi seen inInter, c :: cs =>
    if isCsiFinal c then ansiScan AnsiMode.normal cs
    else if !inInter && isCsiParam c then ansiScan (AnsiMode.csi (c :: seen) false) cs
    else if isCsiInter c then ansiScan (AnsiMode.csi (c :: seen) true) cs
    else if c = '\x1b' then '\x1b' :: '[' :: seen.reverse ++ ansiScan AnsiMode.esc cs
    else '\x1b' :: '[' :: seen.reverse ++ (c :: ansiScan AnsiMode.normal cs)

/-- strip_ansi from the source: remove every match of the ANSI escape
regex from the text. -/
def strip_ansi (text : String) : String :=
  String.mk (ansiScan AnsiMode.normal text.toList)

/-! ## Data model -/

/-- QuestionOption dataclass of the source. -/
structure QuestionOption where
  number : Nat
  label : String
  description : String
  is_selected : Bool
  is_text_input : Bool
deriving DecidableEq

/-- DetectedQuestion dataclass of the source. -/
structure DetectedQuestion where
  header : String
  question : String
  options : List QuestionOption
  selected_index : Nat
  has_text_option : Bool
deriving DecidableEq

/-! ## Prompt parser -/

/-- Fixed text of the first footer sentinel. -/
def enterToSelect : List Char := "Enter to select".toList

/-- Fixed text of the second footer sentinel. -/
def tabArrow : List Char := "Tab/Arrow".toList

/-- Fixed marker phrase of the free-text option. -/
def typeSomething : List Char := "type something".toList

/-- Group 1 of re.search of the pattern checkbox backslash-s-star dot-plus
applied to the text after the checkbox character, already stripped as the
source does.  When only whitespace follows, the greedy whitespace star
backtracks one character and the group is that single whitespace
character, which strips to the empty string. -/
def cbHeader (rest : List Char) : Option String :=
  if rest.isEmpty then none
  else
    let rem := rest.dropWhile pyIsSpace
    if rem.isEmpty then some ("")
    else some (String.mk (pyStrip rem))

/-- Leftmost match of the header regex inside one line: try each
checkbox character in turn until the remainder of the line yields a
group. -/
def searchCheckbox : List Char → Option String
  | [] => none
  | c :: rest =>
    if c = '☐' || c = '☑' then
      match cbHeader rest with
      | some h => some h
      | none => searchCheckbox rest
    else searchCheckbox rest

/-- Header scan of parse_multiple_choice: first line containing a
checkbox character whose header regex matches; returns the stripped
header and the line index. -/
def findHeader : List (List Char) → Nat → Option (String × Nat)
  | [], _ => none
  | l :: rest, i =>
    if l.contains '☐' || l.contains '☑' then
      match searchCheckbox l with
      | some h => some (h, i)
      | none => findHeader rest (i + 1)
    else findHeader rest (i + 1)

/-- re.match of the pattern selector-class-star digits-plus dot used to
recognise the start of an option line during the question scan.  The
character classes are pairwise disjoint, so greedy scanning without
backtracking is exact. -/
def optionLineTest (line : List Char) : Bool :=
  let r := line.dropWhile (fun c => c = '❯' || c = '>' || pyIsSpace c)
  let ds := r.takeWhile Char.isDigit
  !ds.isEmpty && decide ((r.dropWhile Char.isDigit).head? = some '.')

/-- Question scan of parse_multiple_choice: from the line after the
header, within a ten-line window, skip blank lines, give up on an option
line, skip lines starting with the footer sentinel, and return the first
remaining line stripped, with its index.  The fuel argument is the
number of indices left in the window. -/
def findQuestion (lines : List (List Char)) : Nat → Nat → Option (List Char × Nat)
  | _, 0 => none
  | i, fuel + 1 =>
    let line := pyStrip (lines.getD i [])
    if line.isEmpty then findQuestion lines (i + 1) fuel
    else if optionLineTest line then none
    else if startsWithL enterToSelect line then findQuestion lines (i + 1) fuel
    else some (line, i)

/-- re.match of the full option pattern: group 1 is leading whitespace,
an optional selector character and further whitespace; group 2 the
digits; then a literal dot; group 3 the rest of the line after greedy
whitespace, which must be non-empty (when only whitespace follows the
dot, the greedy star backtracks and group 3 is a single whitespace
character, which strips to the empty label). -/
def optionMatch (line : List Char) : Option (List Char × Nat × String) :=
  let ws1 := line.takeWhile pyIsSpace
  let r1 := line.dropWhile pyIsSpace
  let selAndRest :=
    match r1 with
    | c :: rest => if c = '❯' || c = '>' then ([c], rest) else (([] : List Char), r1)
    | [] => (([] : List Char), r1)
  let sel := selAndRest.1
  let r2 := selAndRest.2
  let ws2 := r2.takeWhile pyIsSpace
  let r3 := r2.dropWhile pyIsSpace
  let ds := r3.takeWhile Char.isDigit
  let r4 := r3.dropWhile Char.isDigit
  if ds.isEmpty then none
  else
    match r4 with
    | '.' :: r5 =>
      let r6 := r5.dropWhile pyIsSpace
      if !r6.isEmpty then
        some (ws1 ++ sel ++ ws2, natOfDigits ds, String.mk (pyStrip r6))
      else if !r5.isEmpty then
        some (ws1 ++ sel ++ ws2, natOfDigits ds, ("" : String))
      else none
    | _ => none

/-- QuestionOption value built by the source when an option line is
recognised: the displayed number, the stripped label, an empty
description, the selected flag from the selector glyph in the prefix,
and the free-text flag from the lowercased label containing the marker
phrase. -/
def newOption (pre : List Char) (num : Nat) (label : String) : QuestionOption :=
  { number := num, label := label, description := ("" : String),
    is_selected := pre.contains '❯' || pre.contains '>',
    is_text_input := containsL typeSomething (label.toList.map Char.toLower) }

/-- Description continuation of the source: append the stripped line to
the in-progress option, separated by one space when a description is
already present. -/
def addDescription (line : List Char) (o : QuestionOption) : QuestionOption :=
  { o with description :=
      if o.description = ("" : String) then String.mk (pyStrip line)
      else o.description ++ (" " : String) ++ String.mk (pyStrip line) }

/-- Append the in-progress option, when one exists, to the collected
list, as the source does before starting a new option and after the
loop. -/
def finalizeOpt (opts : List QuestionOption) : Option QuestionOption → List QuestionOption
  | none => opts
  | some o => opts ++ [o]

/-- Option scan of parse_multiple_choice over the lines after the
question line, carrying the collected options, the selected index and
the in-progress option. -/
def scanOptions : List (List Char) → List QuestionOption → Nat → Option QuestionOption →
    List QuestionOption × Nat
  | [], opts, sel, cur => (finalizeOpt opts cur, sel)
  | line :: rest, opts, sel, cur =>
    if containsL enterToSelect line || containsL tabArrow line then
      (finalizeOpt opts cur, sel)
    else
      match optionMatch line with
      | some (pre, num, label) =>
        let opts2 := finalizeOpt opts cur
        let sel2 := if pre.contains '❯' || pre.contains '>' then opts2.length else sel
        scanOptions rest opts2 sel2 (some (newOption pre num label))
      | none =>
        if cur.isSome && !(pyStrip line).isEmpty then
          scanOptions rest opts sel (cur.map (addDescription line))
        else scanOptions rest opts sel cur

/-- parse_multiple_choice from the source: anchor on the checkbox
header, find the question line inside the ten-line window, scan the
option block, and build the DetectedQuestion when at least one option
was collected. -/
def parse_multiple_choice (screen_text : String) : Option DetectedQuestion :=
  let lines := splitLines screen_text.toList
  match findHeader lines 0 with
  | none => none
  | some (header, header_idx) =>
    let hi := min (header_idx + 10) lines.length
    match findQuestion lines (header_idx + 1) (hi - (header_idx + 1)) with
    | none => none
    | some (qline, question_idx) =>
      let os := scanOptions (lines.drop (question_idx + 1)) [] 0 none
      if os.1.isEmpty then none
      else some { header := header, question := String.mk qline, options := os.1,
                  selected_index := os.2,
                  has_text_option := os.1.any (fun o => o.is_text_input) }

/-! ## Navigation planner

send_answer dispatches raw keystrokes to the session: the down-arrow
escape sequence, the up-arrow escape sequence, a carriage return, or
literal text.  The Key type records one dispatch; SendOutcome records
the dispatched trace together with the structured result dictionary the
function returns. -/

/-- One synthetic keystroke dispatched through async_send_text. -/
inductive Key where
  | down
  | up
  | enter
  | text (s : String)
deriving DecidableEq

/-- Structured result dictionary returned by send_answer. -/
inductive AnswerResult where
  | typed_text (text : String)
  | selected_option (choice : Int) (label : String)
  | invalid_choice (choice : Int) (optionCount : Nat)
  | no_action
deriving DecidableEq

/-- Trace of dispatched keystrokes paired with the returned result. -/
structure SendOutcome where
  sent : List Key
  result : AnswerResult
deriving DecidableEq

/-- Arrow-key block of send_answer: moves individual down arrows when
positive, that many up arrows when negative, nothing when zero. -/
def movesKeys (moves : Int) : List Key :=
  if 0 < moves then List.replicate moves.toNat Key.down
  else if moves < 0 then List.replicate (-moves).toNat Key.up
  else []

/-- Placeholder option used for list indexing that the source guards by
a range check. -/
def defaultQuestionOption : QuestionOption :=
  { number := 0, label := ("" : String), description := ("" : String),
    is_selected := false, is_text_input := false }

/-- Text branch of send_answer: navigate to the first free-text option
when one exists, press enter, type the text, press enter. -/
def send_answer_text (q : DetectedQuestion) (text : String) : SendOutcome :=
  let nav :=
    match q.options.findIdx? (fun o => o.is_text_input) with
    | some i => movesKeys ((i : Int) - (q.selected_index : Int))
    | none => []
  { sent := nav ++ [Key.enter, Key.text text, Key.enter],
    result := AnswerResult.typed_text text }

/-- Choice branch of send_answer: range-check the one-based choice
before any dispatch, then navigate to the target index and press
enter. -/
def send_answer_choice (q : DetectedQuestion) (choice : Int) : SendOutcome :=
  let target_idx := choice - 1
  if target_idx < 0 ∨ (q.options.length : Int) ≤ target_idx then
    { sent := [], result := AnswerResult.invalid_choice choice q.options.length }
  else
    { sent := movesKeys (target_idx - (q.selected_index : Int)) ++ [Key.enter],
      result := AnswerResult.selected_option choice
        (q.options.getD target_idx.toNat defaultQuestionOption).label }

/-! ## Navigation actions

The specification describes plans in terms of MoveSelection, Confirm and
EmitText actions; a run of identical arrow keystrokes realises one
MoveSelection with that count.  toActions abstracts a keystroke trace to
that action vocabulary. -/

/-- Direction of a MoveSelection action. -/
inductive Direction where
  | up
  | down
deriving DecidableEq

/-- NavigationAction of the specification. -/
inductive NavAction where
  | move (d : Direction) (count : Nat)
  | confirm
  | emitText (s : String)
deriving DecidableEq

/-- Emit a pending run of arrow keystrokes as one MoveSelection. -/
def flushMove : Option (Direction × Nat) → List NavAction
  | none => []
  | some (d, k) => [NavAction.move d k]

/-- Group a keystroke trace into navigation actions, merging maximal
runs of equal arrow keys. -/
def toActionsAux : Option (Direction × Nat) → List Key → List NavAction
  | pend, [] => flushMove pend
  | some (Direction.down, k), Key.down :: rest =>
    toActionsAux (some (Direction.down, k + 1)) rest
  | some (Direction.up, k), Key.up :: rest =>
    toActionsAux (some (Direction.up, k + 1)) rest
  | pend, Key.down :: rest => flushMove pend ++ toActionsAux (some (Direction.down, 1)) rest
  | pend, Key.up :: rest => flushMove pend ++ toActionsAux (some (Direction.up, 1)) rest
  | pend, Key.enter :: rest => flushMove pend ++ NavAction.confirm :: toActionsAux none rest
  | pend, Key.text s :: rest => flushMove pend ++ NavAction.emitText s :: toActionsAux none rest

/-- Action view of a keystroke trace. -/
def toActions (ks : List Key) : List NavAction := toActionsAux none ks

/-- Signed sum of planned moves: down counts positively, up negatively. -/
def netMoves : List NavAction → Int
  | [] => 0
  | NavAction.move Direction.down k :: rest => (k : Int) + netMoves rest
  | NavAction.move Direction.up k :: rest => netMoves rest - (k : Int)
  | _ :: rest => netMoves rest

/-- Number of Confirm actions in a plan. -/
def countConfirms : List NavAction → Nat
  | [] => 0
  | NavAction.confirm :: rest => countConfirms rest + 1
  | _ :: rest => countConfirms rest

/-! ## Session locator and watch loop -/

/-- One terminal session: its identifier and the outcome of reading its
screen, none modelling a transport error raised by the read. -/
structure Session where
  session_id : String
  screen : Option String

/-- One tab, holding its sessions in order. -/
structure Tab where
  sessions : List Session

/-- One window, holding its tabs in order. -/
structure Window where
  tabs : List Tab

/-- The application object: its windows in order. -/
structure App where
  terminal_windows : List Window

/-- Flattening of the three nested loops over windows, tabs and
sessions, in enumeration order. -/
def allSessions (app : App) : List Session :=
  app.terminal_windows.flatMap (fun w => w.tabs.flatMap (fun t => t.sessions))

/-- Pre-filter of find_claude_session: the raw screen text contains the
selector glyph or the unchecked checkbox glyph. -/
def hasPromptGlyph (t : String) : Bool :=
  t.toList.contains '❯' || t.toList.contains '☐'

/-- Scanning loop of find_claude_session over a session list: skip the
callers own session, skip any session whose screen read raises, and
return the first remaining session whose screen shows a prompt glyph. -/
def findInSessions (own : String) : List Session → Option Session
  | [] => none
  | s :: rest =>
    if s.session_id = own then findInSessions own rest
    else
      match s.screen with
      | none => findInSessions own rest
      | some t => if hasPromptGlyph t then some s else findInSessions own rest

/-- find_claude_session from the source, over the window, tab, session
enumeration order. -/
def find_claude_session (app : App) (own : String) : Option Session :=
  findInSessions own (allSessions app)

/-- One emitted watch event: the session identifier and the parsed
question. -/
structure WatchEvent where
  session_id : String
  question : DetectedQuestion
deriving DecidableEq

/-- De-duplication key used by watch_for_questions. -/
def questionKey (sid : String) (q : DetectedQuestion) : String :=
  sid ++ (":" : String) ++ q.question

/-- One polling tick of watch_for_questions over a session list: skip
the callers own session, skip sessions whose screen read raises, parse
the sanitized screen of each remaining session, and emit an event for
every parsed question whose key is not yet in the seen set, adding the
key.  Returns the grown seen set and the emitted events in order. -/
def watchTick (own : String) : List Session → List String → List String × List WatchEvent
  | [], seen => (seen, [])
  | s :: rest, seen =>
    if s.session_id = own then watchTick own rest seen
    else
      match s.screen with
      | none => watchTick own rest seen
      | some raw =>
        match parse_multiple_choice (strip_ansi raw) with
        | none => watchTick own rest seen
        | some q =>
          if questionKey s.session_id q ∈ seen then watchTick own rest seen
          else
            let out := watchTick own rest (questionKey s.session_id q :: seen)
            (out.1, { session_id := s.session_id, question := q } :: out.2)

/-! ## The documented example screen -/

/-- Screen text of the documented scenario. -/
def exampleScreen : String :=
  "☐ Next task\n\nWhat should I work on?\n\n❯ 1. Fix the bug\n     Investigate the crash\n  2. Write tests\n  3. Type something.\n\nEnter to select · Tab/Arrow keys to navigate · Esc to cancel"

/-- Question parsed from the documented scenario screen. -/
def exampleQuestion : DetectedQuestion :=
  { header := ("Next task" : String),
    question := ("What should I work on?" : String),
    options :=
      [ { number := 1, label := ("Fix the bug" : String),
          description := ("Investigate the crash" : String),
          is_selected := true, is_text_input := false },
        { number := 2, label := ("Write tests" : String), description := ("" : String),
          is_selected := false, is_text_input := false },
        { number := 3, label := ("Type something." : String), description := ("" : String),
          is_selected := false, is_text_input := true } ],
    selected_index := 0,
    has_text_option := true }

/-! ## Claim theorems -/

/-- C1: the documented example screen parses to a Question with header
Next task, body What should I work on, exactly the three options in
display order with option one carrying the description Investigate the
crash, selectedIndex 0, option three flagged as the free-text
placeholder, and hasFreeTextOption true. -/
theorem parse_example_screen :
    parse_multiple_choice exampleScreen = some exampleQuestion := by
  decide

/-- C3 counterexample: on the example Question the free-text plan for
the content build a CLI is MoveSelection down 2, Confirm, EmitText,
Confirm; it is not the claimed five-action sequence with two consecutive
Confirms before the text, because send_answer presses enter only once
before typing. -/
theorem free_text_plan_counterexample :
    parse_multiple_choice exampleScreen = some exampleQuestion ∧
    ¬ toActions (send_answer_text exampleQuestion ("build a CLI" : String)).sent =
      [NavAction.move Direction.down 2, NavAction.confirm, NavAction.confirm,
       NavAction.emitText ("build a CLI" : String), NavAction.confirm] := by
  decide

/-- C3 amended: on the example Question the free-text plan for the
content build a CLI is exactly MoveSelection down 2 to reach the
free-text option, one Confirm that selects it and enters text-input
mode, the literal text, and a final Confirm that submits it. -/
theorem free_text_plan_example :
    parse_multiple_choice exampleScreen = some exampleQuestion ∧
    toActions (send_answer_text exampleQuestion ("build a CLI" : String)).sent =
      [NavAction.move Direction.down 2, NavAction.confirm,
       NavAction.emitText ("build a CLI" : String), NavAction.confirm] := by
  decide

/-- C6 counterexample: strip_ansi keeps a charset-shift sequence ESC
open-paren B whole, keeps the payload and the bell terminator of an OSC
sequence (only the two leading bytes ESC right-bracket go), and keeps a
raw backspace control byte, all of which the claim says are removed. -/
theorem strip_ansi_counterexample :
    strip_ansi (String.mk ['\x1b', '(', 'B']) = String.mk ['\x1b', '(', 'B'] ∧
    strip_ansi (String.mk ['\x1b', ']', '0', ';', 't', '\x07', 'x']) =
      String.mk ['0', ';', 't', '\x07', 'x'] ∧
    strip_ansi (String.mk ['a', '\x08', 'b']) = String.mk ['a', '\x08', 'b'] := by
  decide

/-! ## Helper lemmas about the sanitizer -/

theorem csiParam_not_final {c : Char} (h : isCsiParam c = true) : isCsiFinal c = false := by
  simp only [isCsiParam, decide_eq_true_eq] at h
  simp only [isCsiFinal, decide_eq_false_iff_not]
  omega

theorem csiInter_not_final {c : Char} (h : isCsiInter c = true) : isCsiFinal c = false := by
  simp only [isCsiInter, decide_eq_true_eq] at h
  simp only [isCsiFinal, decide_eq_false_iff_not]
  omega

theorem csiInter_not_param {c : Char} (h : isCsiInter c = true) : isCsiParam c = false := by
  simp only [isCsiInter, decide_eq_true_eq] at h
  simp only [isCsiParam, decide_eq_false_iff_not]
  omega

theorem ansiScan_plain (plain rest : List Char) (h : ∀ c ∈ plain, ¬ c = '\x1b') :
    ansiScan AnsiMode.normal (plain ++ rest) = plain ++ ansiScan AnsiMode.normal rest := by
  induction plain with
  | nil => rfl
  | cons c cs ih =>
    have hc : ¬ c = '\x1b' := h c (List.mem_cons_self c cs)
    simp only [List.cons_append, ansiScan, if_neg hc, List.append_eq]
    rw [ih (fun d hd => h d (List.mem_cons_of_mem c hd))]

theorem ansiScan_csi_params (params : List Char) (hp : ∀ c ∈ params, isCsiParam c = true) :
    ∀ (seen tail : List Char),
      ansiScan (AnsiMode.csi seen false) (params ++ tail) =
        ansiScan (AnsiMode.csi (params.reverse ++ seen) false) tail := by
  induction params with
  | nil => intro seen tail; simp
  | cons p ps ih =>
    intro seen tail
    have hp1 : isCsiParam p = true := hp p (List.mem_cons_self p ps)
    have hf : isCsiFinal p = false := csiParam_not_final hp1
    simp only [List.cons_append, ansiScan, hf, Bool.false_eq_true, if_false, Bool.not_false,
      hp1, Bool.and_self, if_true, List.append_eq]
    rw [ih (fun c hc => hp c (List.mem_cons_of_mem p hc)) (p :: seen) tail]
    simp [List.append_assoc]

theorem ansiScan_csi_close (inters : List Char) (hi : ∀ c ∈ inters, isCsiInter c = true)
    (f : Char) (hf : isCsiFinal f = true) :
    ∀ (seen : List Char) (b : Bool) (rest : List Char),
      ansiScan (AnsiMode.csi seen b) (inters ++ f :: rest) =
        ansiScan AnsiMode.normal rest := by
  induction inters with
  | nil => intro seen b rest; simp [ansiScan, hf]
  | cons i is ih =>
    intro seen b rest
    have hi1 : isCsiInter i = true := hi i (List.mem_cons_self i is)
    have hif : isCsiFinal i = false := csiInter_not_final hi1
    have hip : isCsiParam i = false := csiInter_not_param hi1
    simp only [List.cons_append, ansiScan, hif, Bool.false_eq_true, if_false, hip,
      Bool.and_false, hi1, if_true]
    exact ih (fun c hc => hi c (List.mem_cons_of_mem i hc)) (i :: seen) true rest

/-- C6 amended: the sanitizer passes escape-free text through unchanged
(so newlines and printable glyphs survive), removes a two-character
ESC-plus-final sequence, and removes a complete CSI sequence of
parameter bytes, intermediate bytes and a final byte; it does not touch
OSC payloads, bell terminators, charset-shift sequences or raw control
bytes, and malformed fragments are left in place. -/
theorem strip_ansi_behaviour (plain : List Char) (hplain : ∀ c ∈ plain, ¬ c = '\x1b')
    (rest : List Char) (e : Char) (he : isFeByte e = true)
    (params inters : List Char) (f : Char)
    (hp : ∀ c ∈ params, isCsiParam c = true)
    (hi : ∀ c ∈ inters, isCsiInter c = true)
    (hf : isCsiFinal f = true) :
    ansiScan AnsiMode.normal (plain ++ rest) = plain ++ ansiScan AnsiMode.normal rest ∧
    ansiScan AnsiMode.normal ('\x1b' :: e :: rest) = ansiScan AnsiMode.normal rest ∧
    ansiScan AnsiMode.normal ('\x1b' :: '[' :: (params ++ inters ++ f :: rest)) =
      ansiScan AnsiMode.normal rest := by
  refine ⟨ansiScan_plain plain rest hplain, ?_, ?_⟩
  · simp [ansiScan, he]
  · have h1 : isFeByte '[' = false := by decide
    have h2 : params ++ inters ++ f :: rest = params ++ (inters ++ f :: rest) := by
      simp [List.append_assoc]
    simp only [ansiScan, if_pos rfl, h1, Bool.false_eq_true, if_false, h2]
    rw [ansiScan_csi_params params hp [] (inters ++ f :: rest)]
    exact ansiScan_csi_close inters hi f hf (params.reverse ++ []) false rest

/-- Witness instantiating the amended sanitizer theorem at concrete
text, escape and sequence bytes. -/
theorem strip_ansi_behaviour_witness :
    ansiScan AnsiMode.normal (['a', 'b'] ++ ['c']) =
      ['a', 'b'] ++ ansiScan AnsiMode.normal ['c'] ∧
    ansiScan AnsiMode.normal ('\x1b' :: 'M' :: ['c']) = ansiScan AnsiMode.normal ['c'] ∧
    ansiScan AnsiMode.normal ('\x1b' :: '[' :: (['3', '1'] ++ [' '] ++ 'm' :: ['c'])) =
      ansiScan AnsiMode.normal ['c'] :=
  strip_ansi_behaviour ['a', 'b'] (by decide) ['c'] 'M' (by decide) ['3', '1'] [' '] 'm'
    (by decide) (by decide) (by decide)

/-! ## Helper lemmas about keystroke aggregation -/

theorem toActionsAux_rep_down (n : Nat) :
    ∀ (k : Nat) (rest : List Key),
      toActionsAux (some (Direction.down, k)) (List.replicate n Key.down ++ rest) =
        toActionsAux (some (Direction.down, k + n)) rest := by
  induction n with
  | zero => intro k rest; simp
  | succ m ih =>
    intro k rest
    rw [List.replicate_succ, List.cons_append]
    rw [show toActionsAux (some (Direction.down, k))
          (Key.down :: (List.replicate m Key.down ++ rest)) =
        toActionsAux (some (Direction.down, k + 1)) (List.replicate m Key.down ++ rest)
        from rfl]
    rw [ih (k + 1) rest, show k + 1 + m = k + (m + 1) from by omega]

theorem toActionsAux_rep_up (n : Nat) :
    ∀ (k : Nat) (rest : List Key),
      toActionsAux (some (Direction.up, k)) (List.replicate n Key.up ++ rest) =
        toActionsAux (some (Direction.up, k + n)) rest := by
  induction n with
  | zero => intro k rest; simp
  | succ m ih =>
    intro k rest
    rw [List.replicate_succ, List.cons_append]
    rw [show toActionsAux (some (Direction.up, k))
          (Key.up :: (List.replicate m Key.up ++ rest)) =
        toActionsAux (some (Direction.up, k + 1)) (List.replicate m Key.up ++ rest)
        from rfl]
    rw [ih (k + 1) rest, show k + 1 + m = k + (m + 1) from by omega]

theorem toActions_rep_down_enter (n : Nat) :
    toActions (List.replicate (n + 1) Key.down ++ [Key.enter]) =
      [NavAction.move Direction.down (n + 1), NavAction.confirm] := by
  unfold toActions
  rw [List.replicate_succ, List.cons_append]
  rw [show toActionsAux none (Key.down :: (List.replicate n Key.down ++ [Key.enter])) =
      toActionsAux (some (Direction.down, 1)) (List.replicate n Key.down ++ [Key.enter])
      from rfl]
  rw [toActionsAux_rep_down n 1 [Key.enter]]
  rw [show (1 : Nat) + n = n + 1 by omega]
  rfl

theorem toActions_rep_up_enter (n : Nat) :
    toActions (List.replicate (n + 1) Key.up ++ [Key.enter]) =
      [NavAction.move Direction.up (n + 1), NavAction.confirm] := by
  unfold toActions
  rw [List.replicate_succ, List.cons_append]
  rw [show toActionsAux none (Key.up :: (List.replicate n Key.up ++ [Key.enter])) =
      toActionsAux (some (Direction.up, 1)) (List.replicate n Key.up ++ [Key.enter])
      from rfl]
  rw [toActionsAux_rep_up n 1 [Key.enter]]
  rw [show (1 : Nat) + n = n + 1 by omega]
  rfl

theorem toActions_moves_enter (m : Int) :
    toActions (movesKeys m ++ [Key.enter]) =
      (if 0 < m then [NavAction.move Direction.down m.toNat]
       else if m < 0 then [NavAction.move Direction.up (-m).toNat]
       else []) ++ [NavAction.confirm] := by
  rcases lt_trichotomy m 0 with hm | hm | hm
  · have hpos : ¬ 0 < m := by omega
    obtain ⟨k, hk⟩ : ∃ k, (-m).toNat = k + 1 := ⟨(-m).toNat - 1, by omega⟩
    rw [if_neg hpos, if_pos hm]
    simp only [movesKeys, if_neg hpos, if_pos hm, hk]
    rw [toActions_rep_up_enter k]
    rfl
  · subst hm
    simp [movesKeys, toActions, toActionsAux, flushMove]
  · obtain ⟨k, hk⟩ : ∃ k, m.toNat = k + 1 := ⟨m.toNat - 1, by omega⟩
    rw [if_pos hm]
    simp only [movesKeys, if_pos hm, hk]
    rw [toActions_rep_down_enter k]
    rfl

/-- C2: for a Question with selectedIndex and a target index both inside
the option range, the choice plan is at most one MoveSelection followed
by exactly one Confirm: one down move of delta when delta is positive,
one up move of minus delta when negative, none when zero; its net
down-minus-up sum is exactly targetIndex minus selectedIndex, it
contains exactly one Confirm, and it ends with that Confirm. -/
theorem option_plan_shape (q : DetectedQuestion) (target : Nat)
    (_hsel : q.selected_index < q.options.length) (htgt : target < q.options.length) :
    toActions (send_answer_choice q ((target : Int) + 1)).sent =
      (if 0 < (target : Int) - (q.selected_index : Int) then
        [NavAction.move Direction.down ((target : Int) - (q.selected_index : Int)).toNat]
       else if (target : Int) - (q.selected_index : Int) < 0 then
        [NavAction.move Direction.up (-((target : Int) - (q.selected_index : Int))).toNat]
       else []) ++ [NavAction.confirm] ∧
    netMoves (toActions (send_answer_choice q ((target : Int) + 1)).sent) =
      (target : Int) - (q.selected_index : Int) ∧
    countConfirms (toActions (send_answer_choice q ((target : Int) + 1)).sent) = 1 ∧
    (toActions (send_answer_choice q ((target : Int) + 1)).sent).getLast? =
      some NavAction.confirm := by
  have hcond : ¬ (((target : Int) + 1 - 1) < 0 ∨
      (q.options.length : Int) ≤ ((target : Int) + 1 - 1)) := by
    push_neg
    omega
  have hsent : (send_answer_choice q ((target : Int) + 1)).sent =
      movesKeys ((target : Int) + 1 - 1 - (q.selected_index : Int)) ++ [Key.enter] := by
    simp only [send_answer_choice, if_neg hcond]
  have hd : (target : Int) + 1 - 1 - (q.selected_index : Int) =
      (target : Int) - (q.selected_index : Int) := by omega
  rw [hsent, hd, toActions_moves_enter]
  refine ⟨rfl, ?_, ?_, ?_⟩
  · rcases lt_trichotomy ((target : Int) - (q.selected_index : Int)) 0 with hm | hm | hm
    · rw [if_neg (by omega : ¬ 0 < (target : Int) - (q.selected_index : Int)), if_pos hm]
      simp only [List.singleton_append, netMoves]
      omega
    · rw [hm]
      simp [netMoves]
    · rw [if_pos hm]
      simp only [List.singleton_append, netMoves]
      omega
  · rcases lt_trichotomy ((target : Int) - (q.selected_index : Int)) 0 with hm | hm | hm
    · rw [if_neg (by omega : ¬ 0 < (target : Int) - (q.selected_index : Int)), if_pos hm]
      simp [countConfirms]
    · rw [hm]
      simp [countConfirms]
    · rw [if_pos hm]
      simp [countConfirms]
  · rcases lt_trichotomy ((target : Int) - (q.selected_index : Int)) 0 with hm | hm | hm
    · rw [if_neg (by omega : ¬ 0 < (target : Int) - (q.selected_index : Int)), if_pos hm]
      simp
    · rw [hm]
      simp
    · rw [if_pos hm]
      simp

/-- Witness instantiating the option-plan theorem on the example
Question with target index two. -/
theorem option_plan_shape_witness :
    netMoves (toActions (send_answer_choice exampleQuestion (((2 : Nat) : Int) + 1)).sent) =
      ((2 : Nat) : Int) - (exampleQuestion.selected_index : Int) ∧
    countConfirms (toActions (send_answer_choice exampleQuestion (((2 : Nat) : Int) + 1)).sent) =
      1 :=
  ⟨(option_plan_shape exampleQuestion 2 (by decide) (by decide)).2.1,
   (option_plan_shape exampleQuestion 2 (by decide) (by decide)).2.2.1⟩

/-- C4: the choice branch of send_answer returns the invalid-choice
error exactly when the zero-based target index falls outside the option
range, and returns the selected-option success result for every index
inside the range. -/
theorem choice_range_check (q : DetectedQuestion) (choice : Int) :
    ((choice - 1 < 0 ∨ (q.options.length : Int) ≤ choice - 1) →
      (send_answer_choice q choice).result =
        AnswerResult.invalid_choice choice q.options.length) ∧
    ((0 ≤ choice - 1 ∧ choice - 1 < (q.options.length : Int)) →
      (send_answer_choice q choice).result =
        AnswerResult.selected_option choice
          (q.options.getD (choice - 1).toNat defaultQuestionOption).label) := by
  constructor
  · intro h
    simp only [send_answer_choice, if_pos h]
  · intro h
    have hcond : ¬ (choice - 1 < 0 ∨ (q.options.length : Int) ≤ choice - 1) := by
      push_neg
      omega
    simp only [send_answer_choice, if_neg hcond]

/-- Witness instantiating the range check on the example Question with
the out-of-range choice five and the in-range choice two. -/
theorem choice_range_check_witness :
    (send_answer_choice exampleQuestion 5).result =
      AnswerResult.invalid_choice 5 exampleQuestion.options.length ∧
    (send_answer_choice exampleQuestion 2).result =
      AnswerResult.selected_option 2
        (exampleQuestion.options.getD ((2 : Int) - 1).toNat defaultQuestionOption).label :=
  ⟨(choice_range_check exampleQuestion 5).1 (by decide),
   (choice_range_check exampleQuestion 2).2 (by decide)⟩

/-- C10: when the requested choice is out of range the choice branch of
send_answer dispatches no keystroke at all and returns the
invalid-choice error, because the range check precedes every dispatch. -/
theorem invalid_choice_sends_nothing (q : DetectedQuestion) (choice : Int)
    (h : choice - 1 < 0 ∨ (q.options.length : Int) ≤ choice - 1) :
    (send_answer_choice q choice).sent = [] ∧
    (send_answer_choice q choice).result =
      AnswerResult.invalid_choice choice q.options.length := by
  simp only [send_answer_choice]
  rw [if_pos h]
  exact ⟨rfl, rfl⟩

/-- Witness instantiating the no-dispatch theorem on the example
Question with choice zero. -/
theorem invalid_choice_sends_nothing_witness :
    (send_answer_choice exampleQuestion 0).sent = [] ∧
    (send_answer_choice exampleQuestion 0).result =
      AnswerResult.invalid_choice 0 exampleQuestion.options.length :=
  invalid_choice_sends_nothing exampleQuestion 0 (by decide)

/-! ## Helper lemmas about the option scan -/

theorem finalizeOpt_eq (opts : List QuestionOption) (cur : Option QuestionOption) :
    finalizeOpt opts cur = opts ++ cur.toList := by
  cases cur <;> simp [finalizeOpt]

theorem scanOptions_footer (line : List Char) (rest : List (List Char))
    (opts : List QuestionOption) (sel : Nat) (cur : Option QuestionOption)
    (h : (containsL enterToSelect line || containsL tabArrow line) = true) :
    scanOptions (line :: rest) opts sel cur = (finalizeOpt opts cur, sel) := by
  simp [scanOptions, h]

theorem scanOptions_option (line : List Char) (rest : List (List Char))
    (opts : List QuestionOption) (sel : Nat) (cur : Option QuestionOption)
    (pre : List Char) (num : Nat) (label : String)
    (h : (containsL enterToSelect line || containsL tabArrow line) = false)
    (hm : optionMatch line = some (pre, num, label)) :
    scanOptions (line :: rest) opts sel cur =
      scanOptions rest (finalizeOpt opts cur)
        (if pre.contains '❯' || pre.contains '>' then (finalizeOpt opts cur).length else sel)
        (some (newOption pre num label)) := by
  simp [scanOptions, h, hm]

theorem scanOptions_desc (line : List Char) (rest : List (List Char))
    (opts : List QuestionOption) (sel : Nat) (cur : Option QuestionOption)
    (h : (containsL enterToSelect line || containsL tabArrow line) = false)
    (hm : optionMatch line = none)
    (hc : (cur.isSome && !(pyStrip line).isEmpty) = true) :
    scanOptions (line :: rest) opts sel cur =
      scanOptions rest opts sel (cur.map (addDescription line)) := by
  simp [scanOptions, h, hm, hc]

theorem scanOptions_skip (line : List Char) (rest : List (List Char))
    (opts : List QuestionOption) (sel : Nat) (cur : Option QuestionOption)
    (h : (containsL enterToSelect line || containsL tabArrow line) = false)
    (hm : optionMatch line = none)
    (hc : (cur.isSome && !(pyStrip line).isEmpty) = false) :
    scanOptions (line :: rest) opts sel cur = scanOptions rest opts sel cur := by
  simp [scanOptions, h, hm, hc]

theorem scanOptions_inv (ls : List (List Char)) :
    ∀ (opts : List QuestionOption) (sel : Nat) (cur : Option QuestionOption),
      (sel = 0 ∨ (sel < opts.length + cur.toList.length ∧
        ∃ o ∈ opts ++ cur.toList, o.is_selected = true)) →
      ((scanOptions ls opts sel cur).2 = 0 ∨
        ((scanOptions ls opts sel cur).2 < (scanOptions ls opts sel cur).1.length ∧
          ∃ o ∈ (scanOptions ls opts sel cur).1, o.is_selected = true)) := by
  induction ls with
  | nil =>
    intro opts sel cur h
    rcases h with h0 | ⟨hlt, o, ho, hos⟩
    · exact Or.inl h0
    · refine Or.inr ⟨?_, o, ?_, hos⟩
      · simpa [scanOptions, finalizeOpt_eq, List.length_append] using hlt
      · simpa [scanOptions, finalizeOpt_eq] using ho
  | cons line rest ih =>
    intro opts sel cur h
    by_cases hft : (containsL enterToSelect line || containsL tabArrow line) = true
    · rw [scanOptions_footer line rest opts sel cur hft]
      rcases h with h0 | ⟨hlt, o, ho, hos⟩
      · exact Or.inl h0
      · refine Or.inr ⟨?_, o, ?_, hos⟩
        · simpa [finalizeOpt_eq, List.length_append] using hlt
        · simpa [finalizeOpt_eq] using ho
    · have hft2 : (containsL enterToSelect line || containsL tabArrow line) = false := by
        simpa using hft
      rcases hm : optionMatch line with _ | ⟨pre, num, label⟩
      · by_cases hc : (cur.isSome && !(pyStrip line).isEmpty) = true
        · rcases hcur : cur with _ | o0
          · rw [hcur] at hc
            simp at hc
          · subst hcur
            rw [scanOptions_desc line rest opts sel (some o0) hft2 hm hc]
            apply ih
            rcases h with h0 | ⟨hlt, o, ho, hos⟩
            · exact Or.inl h0
            · refine Or.inr ⟨by simpa using hlt, ?_⟩
              rcases List.mem_append.mp ho with hin | hin
              · refine ⟨o, ?_, hos⟩
                exact List.mem_append_left _ hin
              · have ho0 : o = o0 := by simpa using hin
                subst ho0
                refine ⟨addDescription line o, List.mem_append_right _ ?_, ?_⟩
                · simp
                · exact hos
        · have hc2 : (cur.isSome && !(pyStrip line).isEmpty) = false := by simpa using hc
          rw [scanOptions_skip line rest opts sel cur hft2 hm hc2]
          exact ih opts sel cur h
      · rw [scanOptions_option line rest opts sel cur pre num label hft2 hm]
        apply ih
        by_cases hsel2 : (pre.contains '❯' || pre.contains '>') = true
        · rw [if_pos hsel2]
          refine Or.inr ⟨by simp, ?_⟩
          refine ⟨newOption pre num label, List.mem_append_right _ ?_, ?_⟩
          · simp
          · exact hsel2
        · rw [if_neg hsel2]
          rcases h with h0 | ⟨hlt, o, ho, hos⟩
          · exact Or.inl h0
          · refine Or.inr ⟨?_, o, ?_, hos⟩
            · simp only [finalizeOpt_eq, List.length_append]
              simp only [Option.toList_some, List.length_singleton]
              omega
            · rw [finalizeOpt_eq]
              exact List.mem_append_left _ ho

/-- C5: every Question produced by parse_multiple_choice has a
non-empty option list, a selected index strictly below the option
count, and a selected index of zero whenever no parsed option carries
the selection marker. -/
theorem parse_invariants (s : String) (q : DetectedQuestion)
    (h : parse_multiple_choice s = some q) :
    ¬ q.options = [] ∧ q.selected_index < q.options.length ∧
    ((∀ o ∈ q.options, o.is_selected = false) → q.selected_index = 0) := by
  simp only [parse_multiple_choice] at h
  split at h
  · exact absurd h (by simp)
  · split at h
    · exact absurd h (by simp)
    · rename_i header hidx hfound qline qidx hq
      split at h
      · exact absurd h (by simp)
      · rename_i hne
        rw [Option.some_inj] at h
        subst h
        have hinv := scanOptions_inv
          ((splitLines s.toList).drop (qidx + 1)) [] 0 none (Or.inl rfl)
        have hopts : ¬ (scanOptions ((splitLines s.toList).drop (qidx + 1)) [] 0 none).1 = [] := by
          intro hc
          rw [hc] at hne
          simp at hne
        refine ⟨hopts, ?_, ?_⟩
        · rcases hinv with h0 | ⟨hlt, _⟩
          · simp only [h0]
            exact List.length_pos.mpr hopts
          · exact hlt
        · intro hall
          rcases hinv with h0 | ⟨_, o, ho, hos⟩
          · exact h0
          · exact absurd (hall o ho) (by simp [hos])

/-- Witness instantiating the parse invariants on the example screen. -/
theorem parse_invariants_witness :
    ¬ exampleQuestion.options = [] ∧
    exampleQuestion.selected_index < exampleQuestion.options.length :=
  ⟨(parse_invariants exampleScreen exampleQuestion (by decide)).1,
   (parse_invariants exampleScreen exampleQuestion (by decide)).2.1⟩

/-! ## Helper lemmas about the header anchor -/

theorem containsChar_false {c : Char} {l : List Char} (h : ¬ c ∈ l) :
    l.contains c = false := by
  simpa using h

theorem splitLines_ne_nil (cs : List Char) : ¬ splitLines cs = [] := by
  cases cs with
  | nil => simp [splitLines]
  | cons a as =>
    simp only [splitLines]
    split
    · simp
    · split <;> simp

theorem splitLines_sub (cs : List Char) : ∀ l ∈ splitLines cs, ∀ c ∈ l, c ∈ cs := by
  induction cs with
  | nil =>
    intro l hl c hc
    simp only [splitLines, List.mem_singleton] at hl
    subst hl
    simp at hc
  | cons a as ih =>
    intro l hl c hc
    by_cases ha : a = '\n'
    · rw [splitLines, if_pos ha] at hl
      rcases List.mem_cons.mp hl with rfl | hl2
      · simp at hc
      · exact List.mem_cons_of_mem a (ih l hl2 c hc)
    · rw [splitLines, if_neg ha] at hl
      rcases hsl : splitLines as with _ | ⟨l0, ls⟩
      · exact absurd hsl (splitLines_ne_nil as)
      · rw [hsl] at hl
        rcases List.mem_cons.mp hl with rfl | hl2
        · rcases List.mem_cons.mp hc with rfl | hc2
          · exact List.mem_cons_self c as
          · exact List.mem_cons_of_mem a (ih l0 (hsl ▸ List.mem_cons_self l0 ls) c hc2)
        · exact List.mem_cons_of_mem a (ih l (hsl ▸ List.mem_cons_of_mem l0 hl2) c hc)

theorem findHeader_none (lines : List (List Char))
    (h : ∀ l ∈ lines, l.contains '☐' = false ∧ l.contains '☑' = false) :
    ∀ i, findHeader lines i = none := by
  induction lines with
  | nil => intro i; rfl
  | cons l rest ih =>
    intro i
    have hl := h l (List.mem_cons_self l rest)
    have hl1 : ¬ '☐' ∈ l := by simpa using hl.1
    have hl2 : ¬ '☑' ∈ l := by simpa using hl.2
    rw [findHeader, if_neg (by simp [hl1, hl2])]
    exact ih (fun m hm => h m (List.mem_cons_of_mem l hm)) (i + 1)

/-- C7: when neither checkbox glyph occurs anywhere in the input text,
parse_multiple_choice returns notFound. -/
theorem no_checkbox_parse_none (s : String) (h1 : ¬ '☐' ∈ s.toList) (h2 : ¬ '☑' ∈ s.toList) :
    parse_multiple_choice s = none := by
  have hfh : findHeader (splitLines s.toList) 0 = none := by
    apply findHeader_none
    intro l hl
    exact ⟨containsChar_false (fun hc => h1 (splitLines_sub s.toList l hl '☐' hc)),
      containsChar_false (fun hc => h2 (splitLines_sub s.toList l hl '☑' hc))⟩
  simp only [parse_multiple_choice, hfh]

/-- Witness instantiating the notFound theorem on checkbox-free text. -/
theorem no_checkbox_parse_none_witness :
    parse_multiple_choice ("hello\nworld" : String) = none :=
  no_checkbox_parse_none ("hello\nworld" : String) (by decide) (by decide)

/-! ## Helper lemmas about session scanning -/

theorem findInSessions_skip_all (own : String) (pre tail : List Session)
    (hpre : ∀ s ∈ pre, s.session_id = own ∨ s.screen = none ∨
      ∃ u, s.screen = some u ∧ hasPromptGlyph u = false) :
    findInSessions own (pre ++ tail) = findInSessions own tail := by
  induction pre with
  | nil => rfl
  | cons s ss ih =>
    have htail := ih (fun x hx => hpre x (List.mem_cons_of_mem s hx))
    rcases hpre s (List.mem_cons_self s ss) with h1 | h2 | ⟨u, hu, hug⟩
    · rw [List.cons_append, findInSessions, if_pos h1]
      exact htail
    · by_cases hid : s.session_id = own
      · rw [List.cons_append, findInSessions, if_pos hid]
        exact htail
      · rw [List.cons_append, findInSessions, if_neg hid, h2]
        exact htail
    · by_cases hid : s.session_id = own
      · rw [List.cons_append, findInSessions, if_pos hid]
        exact htail
      · rw [List.cons_append, findInSessions, if_neg hid, hu]
        simp only [hug, Bool.false_eq_true, if_false]
        exact htail

theorem watchTick_skip_failed (own : String) (bad : Session) (rest : List Session)
    (seen : List String) (hbad : bad.screen = none) :
    watchTick own (bad :: rest) seen = watchTick own rest seen := by
  by_cases hid : bad.session_id = own
  · rw [watchTick, if_pos hid]
  · rw [watchTick, if_neg hid, hbad]

/-- C8: a session whose screen read raises a transport error is skipped
by both the locator scan and a watch tick, and scanning continues over
the remaining sessions; in particular, when every session before the
failing one is the callers own, also failing, or free of prompt glyphs,
and a later session shows a prompt glyph, find_claude_session still
returns that later session. -/
theorem scan_skips_transport_errors (app : App) (own : String) (seen : List String)
    (pre post rest : List Session) (bad good : Session) (t : String)
    (happ : allSessions app = pre ++ bad :: good :: post)
    (hbad : bad.screen = none)
    (hpre : ∀ s ∈ pre, s.session_id = own ∨ s.screen = none ∨
      ∃ u, s.screen = some u ∧ hasPromptGlyph u = false)
    (hgid : ¬ good.session_id = own) (hgscr : good.screen = some t)
    (ht : hasPromptGlyph t = true) :
    find_claude_session app own = some good ∧
    watchTick own (bad :: rest) seen = watchTick own rest seen := by
  constructor
  · rw [find_claude_session, happ, findInSessions_skip_all own pre (bad :: good :: post) hpre]
    have hskip : findInSessions own (bad :: good :: post) = findInSessions own (good :: post) := by
      by_cases hid : bad.session_id = own
      · rw [findInSessions, if_pos hid]
      · rw [findInSessions, if_neg hid, hbad]
    rw [hskip, findInSessions, if_neg hgid, hgscr]
    simp [ht]
  · exact watchTick_skip_failed own bad rest seen hbad

/-- Sessions used by the witnesses of the scanning theorems. -/
def sessM : Session := { session_id := ("me" : String), screen := some ("ready" : String) }

/-- Failing session used by the witnesses of the scanning theorems. -/
def sessB : Session := { session_id := ("b" : String), screen := none }

/-- Prompt-showing session used by the witnesses of the scanning
theorems. -/
def sessG : Session := { session_id := ("g" : String), screen := some ("❯ 1. pick" : String) }

/-- Application holding the witness sessions in two windows. -/
def appW : App :=
  { terminal_windows :=
      [ { tabs := [ { sessions := [sessM, sessB] } ] },
        { tabs := [ { sessions := [sessG] } ] } ] }

/-- Witness instantiating the transport-error theorem on the witness
application. -/
theorem scan_skips_transport_errors_witness :
    find_claude_session appW ("me" : String) = some sessG ∧
    watchTick ("me" : String) (sessB :: []) [] = watchTick ("me" : String) [] [] :=
  scan_skips_transport_errors appW ("me" : String) [] [sessM] [] [] sessB sessG
    ("❯ 1. pick" : String) rfl rfl
    (fun s hs => by
      rw [List.mem_singleton] at hs
      subst hs
      exact Or.inl rfl)
    (by decide) rfl (by decide)

/-! ## Helper lemmas about the watch tick -/

theorem watchTick_seen_mono (own : String) (ss : List Session) :
    ∀ (seen : List String) (k : String), k ∈ seen → k ∈ (watchTick own ss seen).1 := by
  induction ss with
  | nil => intro seen k hk; simpa [watchTick] using hk
  | cons s rest ih =>
    intro seen k hk
    by_cases h1 : s.session_id = own
    · rw [watchTick, if_pos h1]
      exact ih seen k hk
    · rcases hscr : s.screen with _ | raw
      · rw [watchTick, if_neg h1, hscr]
        exact ih seen k hk
      · rcases hq : parse_multiple_choice (strip_ansi raw) with _ | q
        · simp only [watchTick, if_neg h1, hscr, hq]
          exact ih seen k hk
        · by_cases hk2 : questionKey s.session_id q ∈ seen
          · simp only [watchTick, if_neg h1, hscr, hq, if_pos hk2]
            exact ih seen k hk
          · simp only [watchTick, if_neg h1, hscr, hq, if_neg hk2]
            exact ih _ k (List.mem_cons_of_mem _ hk)

theorem watchTick_events_new (own : String) (ss : List Session) :
    ∀ (seen : List String) (ev : WatchEvent), ev ∈ (watchTick own ss seen).2 →
      ¬ questionKey ev.session_id ev.question ∈ seen ∧
      questionKey ev.session_id ev.question ∈ (watchTick own ss seen).1 := by
  induction ss with
  | nil => intro seen ev hev; simp [watchTick] at hev
  | cons s rest ih =>
    intro seen ev hev
    by_cases h1 : s.session_id = own
    · rw [watchTick, if_pos h1] at hev ⊢
      exact ih seen ev hev
    · rcases hscr : s.screen with _ | raw
      · rw [watchTick, if_neg h1, hscr] at hev ⊢
        exact ih seen ev hev
      · rcases hq : parse_multiple_choice (strip_ansi raw) with _ | q
        · simp only [watchTick, if_neg h1, hscr, hq] at hev ⊢
          exact ih seen ev hev
        · by_cases hk2 : questionKey s.session_id q ∈ seen
          · simp only [watchTick, if_neg h1, hscr, hq, if_pos hk2] at hev ⊢
            exact ih seen ev hev
          · simp only [watchTick, if_neg h1, hscr, hq, if_neg hk2] at hev ⊢
            rcases List.mem_cons.mp hev with rfl | hev2
            · exact ⟨hk2, watchTick_seen_mono own rest
                (questionKey s.session_id q :: seen) (questionKey s.session_id q)
                (List.mem_cons_self _ _)⟩
            · have hres := ih (questionKey s.session_id q :: seen) ev hev2
              exact ⟨fun hc => hres.1 (List.mem_cons_of_mem _ hc), hres.2⟩

/-- C9: a watch tick emits an event only for a question whose
session-and-body key is absent from the seen set and adds the key when
it emits; hence feeding the same question screen from the same session
to two successive ticks emits the event exactly once, on the first
tick. -/
theorem watch_dedup (own : String) (sessions : List Session) (seen : List String)
    (s : Session) (raw : String) (q : DetectedQuestion)
    (hid : ¬ s.session_id = own) (hscr : s.screen = some raw)
    (hq : parse_multiple_choice (strip_ansi raw) = some q) :
    (∀ ev ∈ (watchTick own sessions seen).2,
      ¬ questionKey ev.session_id ev.question ∈ seen ∧
      questionKey ev.session_id ev.question ∈ (watchTick own sessions seen).1) ∧
    (watchTick own [s] []).2 = [{ session_id := s.session_id, question := q }] ∧
    (watchTick own [s] ((watchTick own [s] []).1)).2 = [] := by
  refine ⟨fun ev hev => watchTick_events_new own sessions seen ev hev, ?_, ?_⟩
  · simp only [watchTick, if_neg hid, hscr, hq,
      if_neg (by simp : ¬ questionKey s.session_id q ∈ ([] : List String))]
  · have h1 : (watchTick own [s] []).1 = [questionKey s.session_id q] := by
      simp only [watchTick, if_neg hid, hscr, hq,
        if_neg (by simp : ¬ questionKey s.session_id q ∈ ([] : List String))]
    rw [h1]
    simp only [watchTick, if_neg hid, hscr, hq,
      if_pos (List.mem_singleton_self (questionKey s.session_id q))]

/-- Session used by the de-duplication witness: it shows the example
screen. -/
def sessQ : Session := { session_id := ("q" : String), screen := some exampleScreen }

/-- Witness instantiating the de-duplication theorem: the first tick
over the example-screen session emits exactly one event and the second
tick emits none. -/
theorem watch_dedup_witness :
    (watchTick ("me" : String) [sessQ] []).2 =
      [{ session_id := sessQ.session_id, question := exampleQuestion }] ∧
    (watchTick ("me" : String) [sessQ] ((watchTick ("me" : String) [sessQ] []).1)).2 = [] :=
  ⟨(watch_dedup ("me" : String) [sessQ] [] sessQ exampleScreen exampleQuestion
      (by decide) rfl (by decide)).2.1,
   (watch_dedup ("me" : String) [sessQ] [] sessQ exampleScreen exampleQuestion
      (by decide) rfl (by decide)).2.2⟩
